import Mathlib

/-
Verification of `decode-hash.py`: a script that, for each hash string in a
hardcoded list, computes `int(h[:16], 16)`, `int(h[:8], 16)`, `int(h[:6], 16)`
and prints them.

The embedding models Python's `int(s, 16)` conversion faithfully on ASCII
strings: surrounding whitespace is allowed, an optional sign, an optional
`0x`/`0X` base marker, hexadecimal digits `[0-9a-fA-F]`, and underscores that
may appear only between digits (or directly after the base marker).  An
invalid literal raises `ValueError` in Python, modelled as `none`.
-/

namespace DecodeHash

/-- Numeric value of a single hexadecimal digit character, `none` for any
other character.  Mirrors the digit alphabet accepted by CPython's integer
parser for base 16: `0-9`, `a-f`, `A-F`. -/
def hexVal (c : Char) : Option Nat :=
  if 48 ≤ c.toNat ∧ c.toNat ≤ 57 then some (c.toNat - 48)
  else if 97 ≤ c.toNat ∧ c.toNat ≤ 102 then some (c.toNat - 97 + 10)
  else if 65 ≤ c.toNat ∧ c.toNat ≤ 70 then some (c.toNat - 65 + 10)
  else none

/-- ASCII whitespace stripped by Python's `int` around a numeric literal. -/
def isPySpace (c : Char) : Bool :=
  c.toNat = 32 || c.toNat = 9 || c.toNat = 10 || c.toNat = 11 ||
  c.toNat = 12 || c.toNat = 13

/-- Digit sequence after its first digit: hexadecimal digits in which a
single underscore may stand between two digits ("1_2" is valid, "1__2",
"1_" are not).  `acc` is the value accumulated so far; `afterUnderscore`
records whether the previous character was an underscore (an underscore may
not follow another underscore and may not end the run). -/
def hexDigitsLoop (acc : Nat) (afterUnderscore : Bool) :
    List Char → Option Nat
  | [] => if afterUnderscore then none else some acc
  | c :: rest =>
    match hexVal c with
    | some d => hexDigitsLoop (16 * acc + d) false rest
    | none =>
      if c = '_' ∧ afterUnderscore = false then hexDigitsLoop acc true rest
      else none

/-- A full digit run: nonempty, must start with a digit (not an
underscore). -/
def hexDigitsRun : List Char → Option Nat
  | [] => none
  | c :: rest =>
    match hexVal c with
    | some d => hexDigitsLoop d false rest
    | none => none

/-- Digits following a `0x`/`0X` base marker: Python additionally allows a
single underscore directly after the marker (`0x_1f`). -/
def hexAfter0x (s : List Char) : Option Nat :=
  if s.head? = some '_' then hexDigitsRun s.tail else hexDigitsRun s

/-- The unsigned part of a base-16 literal: an optional `0x`/`0X` marker
followed by a digit run. -/
def pyHexMagnitude (s : List Char) : Option Nat :=
  match s with
  | c0 :: c1 :: rest =>
    if c0 = '0' ∧ (c1 = 'x' ∨ c1 = 'X') then hexAfter0x rest
    else hexDigitsRun s
  | _ => hexDigitsRun s

/-- Optional sign in front of the magnitude. -/
def pySigned (s : List Char) : Option Int :=
  if s.head? = some '+' then (pyHexMagnitude s.tail).map Int.ofNat
  else if s.head? = some '-' then
    (pyHexMagnitude s.tail).map (fun n => -(Int.ofNat n))
  else (pyHexMagnitude s).map Int.ofNat

/-- Surrounding whitespace is ignored. -/
def stripPySpace (s : List Char) : List Char :=
  ((s.dropWhile isPySpace).reverse.dropWhile isPySpace).reverse

/-- Python's `int(s, 16)`: `some v` when the string is a valid base-16
integer literal of value `v`, `none` when `ValueError` is raised. -/
def pyIntHex (s : List Char) : Option Int :=
  pySigned (stripPySpace s)

/-- The record of the three values computed for one hash
(`first_3 = int(h[:6],16)`, `first_4 = int(h[:8],16)`,
`first_8 = int(h[:16],16)`). -/
structure DecodedPrefixes where
  first3 : Int
  first4 : Int
  first8 : Int
deriving DecidableEq

/-- The loop body's three conversions, in source order (`first_8` on line 10,
then `first_4`, then `first_3`); the first failing conversion raises, which
aborts the entry before anything is printed. -/
def decode (h : String) : Option DecodedPrefixes :=
  match pyIntHex (h.data.take 16) with
  | none => none
  | some first_8 =>
    match pyIntHex (h.data.take 8) with
    | none => none
    | some first_4 =>
      match pyIntHex (h.data.take 6) with
      | none => none
      | some first_3 => some ⟨first_3, first_4, first_8⟩

/-- The hardcoded input list of the script. -/
def hashes : List String :=
  ["0000006c3a436500b20c0c80f5dae66e1233d84da4ddd5af2987cfdb1562eb9f",
   "0000010214efc2d0f09b4b0bce1f1f5af7df428471031886bff73119c45cdcbc",
   "000002d7a7e5d7bb05b43c21aef385b934c61d3a7605c0829c35defb490a651c"]

/-- The five lines printed for one successfully decoded hash. -/
def entryLines (h : String) (r : DecodedPrefixes) : List String :=
  ["Hash: " ++ h,
   "  First 3 bytes: " ++ toString r.first3,
   "  First 4 bytes: " ++ toString r.first4,
   "  First 8 bytes: " ++ toString r.first8,
   ""]

/-- Lines printed for one entry (empty when decoding the entry raises). -/
def entryOut (h : String) : List String :=
  match decode h with
  | some r => entryLines h r
  | none => []

/-- Lines printed for a list of entries, all assumed to succeed. -/
def driverOut : List String → List String
  | [] => []
  | h :: t => entryOut h ++ driverOut t

/-- The whole script: the lines written to standard output, and whether the
run completed (`false` models the uncaught `ValueError` aborting the
process). -/
def runDriver : List String → List String × Bool
  | [] => ([], true)
  | h :: rest =>
    match decode h with
    | none => ([], false)
    | some r => (entryLines h r ++ (runDriver rest).1, (runDriver rest).2)

/-- Modelled from the spec: "standard base-16 parsing semantics", the value
of a string of hexadecimal digits read big-endian (most significant digit
first).  Non-digits contribute nothing; the spec-level statements only apply
it to digit strings. -/
def hexStep (acc : Nat) (c : Char) : Nat := 16 * acc + ((hexVal c).getD 0)

/-- Modelled from the spec: `int(h[0:k], 16)` on a pure hex-digit string. -/
def hexValue (s : List Char) : Nat := s.foldl hexStep 0

/-- Characters with a special role in Python's integer literal syntax. -/
def isDecoration (c : Char) : Bool :=
  isPySpace c || c == '+' || c == '-' || c == '_' || c == 'x' || c == 'X'

/-! ### Basic facts about hexadecimal digits -/

theorem hexVal_le (c : Char) (d : Nat) (h : hexVal c = some d) : d ≤ 15 := by
  unfold hexVal at h
  split at h
  · injection h with h; omega
  · split at h
    · injection h with h; omega
    · split at h
      · injection h with h; omega
      · exact absurd h (by simp)

theorem hexStep_le (acc : Nat) (c : Char) : hexStep acc c ≤ 16 * acc + 15 := by
  unfold hexStep
  rcases h : hexVal c with _ | d
  · simp
  · simpa using hexVal_le c d h

theorem hexVal_isSome_range (c : Char) (h : (hexVal c).isSome = true) :
    (48 ≤ c.toNat ∧ c.toNat ≤ 57) ∨ (97 ≤ c.toNat ∧ c.toNat ≤ 102) ∨
    (65 ≤ c.toNat ∧ c.toNat ≤ 70) := by
  unfold hexVal at h
  split at h
  · exact Or.inl (by assumption)
  · split at h
    · exact Or.inr (Or.inl (by assumption))
    · split at h
      · exact Or.inr (Or.inr (by assumption))
      · simp at h

theorem isPySpace_of_hex (c : Char) (h : (hexVal c).isSome = true) :
    isPySpace c = false := by
  by_contra hs
  rw [Bool.not_eq_false] at hs
  unfold isPySpace at hs
  simp only [Bool.or_eq_true, decide_eq_true_eq] at hs
  have hr := hexVal_isSome_range c h
  omega

theorem hex_ne_special (c : Char) (h : (hexVal c).isSome = true) :
    c ≠ '+' ∧ c ≠ '-' ∧ c ≠ '_' ∧ c ≠ 'x' ∧ c ≠ 'X' := by
  refine ⟨?_, ?_, ?_, ?_, ?_⟩ <;> rintro rfl <;> revert h <;> decide

/-! ### Big-endian value of a digit string -/

theorem foldl_hexStep_init (m : List Char) :
    ∀ a : Nat, m.foldl hexStep a = a * 16 ^ m.length + m.foldl hexStep 0 := by
  induction m with
  | nil => intro a; simp
  | cons c m ih =>
    intro a
    have h1 : (c :: m).foldl hexStep a = m.foldl hexStep (hexStep a c) :=
      List.foldl_cons ..
    have h2 : (c :: m).foldl hexStep 0 = m.foldl hexStep (hexStep 0 c) :=
      List.foldl_cons ..
    rw [h1, h2, ih (hexStep a c), ih (hexStep 0 c)]
    unfold hexStep
    rw [List.length_cons, pow_succ]
    ring

theorem hexValue_lt (m : List Char) : hexValue m < 16 ^ m.length := by
  induction m with
  | nil => simp [hexValue]
  | cons c m ih =>
    have hd : (hexVal c).getD 0 ≤ 15 := by
      rcases h : hexVal c with _ | d
      · simp
      · simpa using hexVal_le c d h
    have hP : (0:Nat) < 16 ^ m.length := Nat.pos_pow_of_pos _ (by norm_num)
    have h1 : hexValue (c :: m) =
        ((hexVal c).getD 0) * 16 ^ m.length + hexValue m := by
      unfold hexValue
      rw [List.foldl_cons, foldl_hexStep_init]
      unfold hexStep
      ring_nf
    rw [h1, List.length_cons, pow_succ]
    calc ((hexVal c).getD 0) * 16 ^ m.length + hexValue m
        < ((hexVal c).getD 0) * 16 ^ m.length + 16 ^ m.length := by omega
      _ = (((hexVal c).getD 0) + 1) * 16 ^ m.length := by ring
      _ ≤ 16 * 16 ^ m.length := Nat.mul_le_mul_right _ (by omega)
      _ = 16 ^ m.length * 16 := by ring

theorem hexValue_append (l m : List Char) :
    hexValue (l ++ m) = hexValue l * 16 ^ m.length + hexValue m := by
  unfold hexValue
  rw [List.foldl_append, foldl_hexStep_init]

/-! ### `pyIntHex` on pure hex-digit strings -/

theorem dropWhile_space_eq_self (l : List Char)
    (h : ∀ c ∈ l, isPySpace c = false) :
    l.dropWhile isPySpace = l := by
  cases l with
  | nil => rfl
  | cons c t =>
    rw [List.dropWhile_cons, h c (List.mem_cons_self ..)]
    simp

theorem stripPySpace_eq_self (l : List Char)
    (h : ∀ c ∈ l, isPySpace c = false) :
    stripPySpace l = l := by
  unfold stripPySpace
  rw [dropWhile_space_eq_self l h,
      dropWhile_space_eq_self l.reverse (by
        intro c hc
        exact h c (List.mem_reverse.mp hc)),
      List.reverse_reverse]

theorem hexDigitsLoop_hex (m : List Char) :
    ∀ acc : Nat, (∀ c ∈ m, (hexVal c).isSome = true) →
      hexDigitsLoop acc false m = some (m.foldl hexStep acc) := by
  induction m with
  | nil => intro acc _; rfl
  | cons c m ih =>
    intro acc hall
    have hc : (hexVal c).isSome = true := hall c (List.mem_cons_self ..)
    rcases Option.isSome_iff_exists.mp hc with ⟨d, hd⟩
    have hrest : ∀ x ∈ m, (hexVal x).isSome = true := fun x hx =>
      hall x (List.mem_cons_of_mem _ hx)
    simp only [hexDigitsLoop, hd, List.foldl_cons]
    rw [ih (16 * acc + d) hrest]
    simp [hexStep, hd]

theorem hexDigitsRun_hex (l : List Char) (hne : l ≠ [])
    (hall : ∀ c ∈ l, (hexVal c).isSome = true) :
    hexDigitsRun l = some (hexValue l) := by
  cases l with
  | nil => exact absurd rfl hne
  | cons c m =>
    have hc : (hexVal c).isSome = true := hall c (List.mem_cons_self ..)
    rcases Option.isSome_iff_exists.mp hc with ⟨d, hd⟩
    have hrest : ∀ x ∈ m, (hexVal x).isSome = true := fun x hx =>
      hall x (List.mem_cons_of_mem _ hx)
    simp only [hexDigitsRun, hd]
    rw [hexDigitsLoop_hex m d hrest]
    unfold hexValue
    rw [List.foldl_cons]
    simp [hexStep, hd]

theorem pyHexMagnitude_hex (l : List Char)
    (hall : ∀ c ∈ l, (hexVal c).isSome = true) :
    pyHexMagnitude l = hexDigitsRun l := by
  match l with
  | [] => rfl
  | [c] => rfl
  | c0 :: c1 :: rest =>
    have h1 : (hexVal c1).isSome = true :=
      hall c1 (List.mem_cons_of_mem _ (List.mem_cons_self ..))
    have hx := hex_ne_special c1 h1
    simp only [pyHexMagnitude]
    rw [if_neg]
    rintro ⟨-, hc1⟩
    rcases hc1 with hc1 | hc1
    · exact hx.2.2.2.1 hc1
    · exact hx.2.2.2.2 hc1

theorem pyIntHex_hex (l : List Char) (hne : l ≠ [])
    (hall : ∀ c ∈ l, (hexVal c).isSome = true) :
    pyIntHex l = some ((hexValue l : Nat) : Int) := by
  unfold pyIntHex
  rw [stripPySpace_eq_self l (fun c hc => isPySpace_of_hex c (hall c hc))]
  cases l with
  | nil => exact absurd rfl hne
  | cons c m =>
    have hc : (hexVal c).isSome = true := hall c (List.mem_cons_self ..)
    have hs := hex_ne_special c hc
    have h1 : ¬((c :: m).head? = some '+') := by
      simp only [List.head?_cons, Option.some.injEq]; exact hs.1
    have h2 : ¬((c :: m).head? = some '-') := by
      simp only [List.head?_cons, Option.some.injEq]; exact hs.2.1
    unfold pySigned
    rw [if_neg h1, if_neg h2,
        pyHexMagnitude_hex _ hall, hexDigitsRun_hex _ (by simp) hall]
    rfl

theorem take_all_hex (l : List Char) (n : Nat)
    (hall : ∀ c ∈ l, (hexVal c).isSome = true) :
    ∀ c ∈ l.take n, (hexVal c).isSome = true := fun c hc =>
  hall c (List.mem_of_mem_take hc)

theorem take_ne_nil_of_ne_nil (l : List Char) (n : Nat) (hne : l ≠ [])
    (hn : n ≠ 0) : l.take n ≠ [] := by
  cases l with
  | nil => exact absurd rfl hne
  | cons c t =>
    cases n with
    | zero => exact absurd rfl hn
    | succ k => simp

/-- On a nonempty string of pure hexadecimal digits, the three conversions
all succeed and produce the big-endian values of the three leading
substrings. -/
theorem decode_of_hex (h : String) (hne : h.data ≠ [])
    (hall : ∀ c ∈ h.data, (hexVal c).isSome = true) :
    decode h = some ⟨(hexValue (h.data.take 6) : Nat),
                     (hexValue (h.data.take 8) : Nat),
                     (hexValue (h.data.take 16) : Nat)⟩ := by
  have h16 := pyIntHex_hex (h.data.take 16)
    (take_ne_nil_of_ne_nil _ _ hne (by norm_num))
    (take_all_hex _ _ hall)
  have h8 := pyIntHex_hex (h.data.take 8)
    (take_ne_nil_of_ne_nil _ _ hne (by norm_num))
    (take_all_hex _ _ hall)
  have h6 := pyIntHex_hex (h.data.take 6)
    (take_ne_nil_of_ne_nil _ _ hne (by norm_num))
    (take_all_hex _ _ hall)
  simp only [decode, h16, h8, h6]

/-- The value of a shorter leading slice of a digit string is the value of a
longer one shifted right by four bits per dropped digit. -/
theorem hexValue_take_shift (l : List Char) (m n : Nat) (hmn : m ≤ n)
    (hn : n ≤ l.length) :
    hexValue (l.take m) = hexValue (l.take n) >>> (4 * (n - m)) := by
  have hsplit : l.take m ++ (l.take n).drop m = l.take n := by
    have h1 := List.take_append_drop m (l.take n)
    rw [List.take_take, Nat.min_eq_left hmn] at h1
    exact h1
  have hlen2 : ((l.take n).drop m).length = n - m := by
    rw [List.length_drop, List.length_take, Nat.min_eq_left hn]
  have hlt : hexValue ((l.take n).drop m) < 16 ^ (n - m) := by
    have h2 := hexValue_lt ((l.take n).drop m)
    rwa [hlen2] at h2
  have h16 : (16 : Nat) ^ (n - m) = 2 ^ (4 * (n - m)) := by
    rw [show (16 : Nat) = 2 ^ 4 from rfl, ← pow_mul]
  have hpos : 0 < (16 : Nat) ^ (n - m) := Nat.pos_pow_of_pos _ (by norm_num)
  rw [Nat.shiftRight_eq_div_pow, ← hsplit, hexValue_append, hlen2, ← h16,
      Nat.add_comm, Nat.add_mul_div_right _ _ hpos, Nat.div_eq_of_lt hlt,
      Nat.zero_add]

/-! ### Characterisation of parse failure (on undecorated ASCII strings) -/

theorem not_decoration_facts (c : Char) (h : isDecoration c = false) :
    isPySpace c = false ∧ c ≠ '+' ∧ c ≠ '-' ∧ c ≠ '_' ∧ c ≠ 'x' ∧ c ≠ 'X' := by
  unfold isDecoration at h
  simp only [Bool.or_eq_false_iff, beq_eq_false_iff_ne, ne_eq] at h
  exact ⟨h.1.1.1.1.1, h.1.1.1.1.2, h.1.1.1.2, h.1.1.2, h.1.2, h.2⟩

theorem hexDigitsLoop_none_iff (m : List Char) :
    (∀ c ∈ m, c ≠ '_') → ∀ acc : Nat,
      (hexDigitsLoop acc false m = none ↔ ∃ c ∈ m, hexVal c = none) := by
  induction m with
  | nil => intro _ acc; simp [hexDigitsLoop]
  | cons c m ih =>
    intro hnu acc
    rcases heq : hexVal c with _ | d
    · have hc : c ≠ '_' := hnu c (List.mem_cons_self ..)
      simp only [hexDigitsLoop, heq]
      rw [if_neg (by rintro ⟨h1, -⟩; exact hc h1)]
      constructor
      · intro _
        exact ⟨c, List.mem_cons_self .., heq⟩
      · intro _
        rfl
    · simp only [hexDigitsLoop, heq]
      rw [ih (fun x hx => hnu x (List.mem_cons_of_mem _ hx)) (16 * acc + d)]
      constructor
      · rintro ⟨x, hx, hxe⟩
        exact ⟨x, List.mem_cons_of_mem _ hx, hxe⟩
      · rintro ⟨x, hx, hxe⟩
        rcases List.mem_cons.mp hx with rfl | hx
        · rw [heq] at hxe
          cases hxe
        · exact ⟨x, hx, hxe⟩

theorem hexDigitsRun_none_iff (l : List Char) (hne : l ≠ [])
    (hnu : ∀ c ∈ l, c ≠ '_') :
    hexDigitsRun l = none ↔ ∃ c ∈ l, hexVal c = none := by
  cases l with
  | nil => exact absurd rfl hne
  | cons c m =>
    rcases heq : hexVal c with _ | d
    · simp only [hexDigitsRun, heq]
      constructor
      · intro _
        exact ⟨c, List.mem_cons_self .., heq⟩
      · intro _
        trivial
    · simp only [hexDigitsRun, heq]
      rw [hexDigitsLoop_none_iff m
            (fun x hx => hnu x (List.mem_cons_of_mem _ hx)) d]
      constructor
      · rintro ⟨x, hx, hxe⟩
        exact ⟨x, List.mem_cons_of_mem _ hx, hxe⟩
      · rintro ⟨x, hx, hxe⟩
        rcases List.mem_cons.mp hx with rfl | hx
        · rw [heq] at hxe
          cases hxe
        · exact ⟨x, hx, hxe⟩

theorem pyHexMagnitude_noDeco (l : List Char)
    (hdec : ∀ c ∈ l, isDecoration c = false) :
    pyHexMagnitude l = hexDigitsRun l := by
  match l with
  | [] => rfl
  | [c] => rfl
  | c0 :: c1 :: rest =>
    have hf := not_decoration_facts c1
      (hdec c1 (List.mem_cons_of_mem _ (List.mem_cons_self ..)))
    simp only [pyHexMagnitude]
    rw [if_neg]
    rintro ⟨-, hc1⟩
    rcases hc1 with hc1 | hc1
    · exact hf.2.2.2.2.1 hc1
    · exact hf.2.2.2.2.2 hc1

theorem pyIntHex_none_iff (l : List Char)
    (hdec : ∀ c ∈ l, isDecoration c = false) :
    pyIntHex l = none ↔ (l = [] ∨ ∃ c ∈ l, hexVal c = none) := by
  have hsp : ∀ c ∈ l, isPySpace c = false := fun c hc =>
    (not_decoration_facts c (hdec c hc)).1
  unfold pyIntHex
  rw [stripPySpace_eq_self l hsp]
  cases l with
  | nil => simp [pySigned, pyHexMagnitude, hexDigitsRun]
  | cons c m =>
    have hf := not_decoration_facts c (hdec c (List.mem_cons_self ..))
    have h1 : ¬((c :: m).head? = some '+') := by
      simp only [List.head?_cons, Option.some.injEq]
      exact hf.2.1
    have h2 : ¬((c :: m).head? = some '-') := by
      simp only [List.head?_cons, Option.some.injEq]
      exact hf.2.2.1
    unfold pySigned
    rw [if_neg h1, if_neg h2, Option.map_eq_none',
        pyHexMagnitude_noDeco _ hdec,
        hexDigitsRun_none_iff _ (by simp)
          (fun x hx => (not_decoration_facts x (hdec x hx)).2.2.2.1)]
    simp

theorem mem_take_mono (l : List Char) (m n : Nat) (hmn : m ≤ n) (c : Char)
    (hc : c ∈ l.take m) : c ∈ l.take n := by
  have h1 : l.take m = (l.take n).take m := by
    rw [List.take_take, Nat.min_eq_left hmn]
  rw [h1] at hc
  exact List.mem_of_mem_take hc

theorem take_eq_nil_of_ne_zero (l : List Char) (n : Nat) (hn : n ≠ 0) :
    l.take n = [] ↔ l = [] := by
  cases l with
  | nil => simp
  | cons c t =>
    cases n with
    | zero => exact absurd rfl hn
    | succ k => simp

theorem decode_none_iff (h : String) :
    decode h = none ↔ pyIntHex (h.data.take 16) = none ∨
      pyIntHex (h.data.take 8) = none ∨
      pyIntHex (h.data.take 6) = none := by
  unfold decode
  rcases h16 : pyIntHex (h.data.take 16) with _ | a <;>
    rcases h8 : pyIntHex (h.data.take 8) with _ | b <;>
      rcases h6 : pyIntHex (h.data.take 6) with _ | c <;>
        simp [h16, h8, h6]

theorem decode_some_inv (h : String) (r : DecodedPrefixes)
    (hr : decode h = some r) :
    pyIntHex (h.data.take 16) = some r.first8 ∧
    pyIntHex (h.data.take 8) = some r.first4 ∧
    pyIntHex (h.data.take 6) = some r.first3 := by
  unfold decode at hr
  rcases h16 : pyIntHex (h.data.take 16) with _ | f8
  · simp only [h16] at hr
    cases hr
  · simp only [h16] at hr
    rcases h8 : pyIntHex (h.data.take 8) with _ | f4
    · simp only [h8] at hr
      cases hr
    · simp only [h8] at hr
      rcases h6 : pyIntHex (h.data.take 6) with _ | f3
      · simp only [h6] at hr
        cases hr
      · simp only [h6] at hr
        injection hr with hr
        subst hr
        exact ⟨rfl, rfl, rfl⟩

theorem mem_stripPySpace (c : Char) (l : List Char)
    (hc : c ∈ stripPySpace l) : c ∈ l := by
  unfold stripPySpace at hc
  rw [List.mem_reverse] at hc
  have h1 : c ∈ (l.dropWhile isPySpace).reverse :=
    (List.dropWhile_sublist _).subset hc
  rw [List.mem_reverse] at h1
  exact (List.dropWhile_sublist _).subset h1

theorem pyIntHex_nonneg (l : List Char) (hns : ('-' : Char) ∉ l) (v : Int)
    (hv : pyIntHex l = some v) : 0 ≤ v := by
  unfold pyIntHex at hv
  have hns' : ('-' : Char) ∉ stripPySpace l := fun hm =>
    hns (mem_stripPySpace _ _ hm)
  unfold pySigned at hv
  split_ifs at hv with h1 h2
  · rcases Option.map_eq_some'.mp hv with ⟨n, -, hn⟩
    rw [← hn]
    exact Int.ofNat_nonneg n
  · exfalso
    apply hns'
    cases hsl : stripPySpace l with
    | nil => rw [hsl] at h2; cases h2
    | cons a t =>
      rw [hsl] at h2
      rw [List.head?_cons, Option.some.injEq] at h2
      rw [h2]
      exact List.mem_cons_self ..
  · rcases Option.map_eq_some'.mp hv with ⟨n, -, hn⟩
    rw [← hn]
    exact Int.ofNat_nonneg n

/-! ### The claims -/

/-- C1: for every hexadecimal string `h` of length at least 16, `decode h`
returns `first3 = int(h[0:6], 16)`, `first4 = int(h[0:8], 16)` and
`first8 = int(h[0:16], 16)`, each the big-endian base-16 value of the
corresponding leading substring. -/
theorem decode_hex_values (h : String)
    (hall : ∀ c ∈ h.data, (hexVal c).isSome = true)
    (hlen : 16 ≤ h.data.length) :
    decode h = some ⟨(hexValue (h.data.take 6) : Nat),
                     (hexValue (h.data.take 8) : Nat),
                     (hexValue (h.data.take 16) : Nat)⟩ :=
  decode_of_hex h
    (by intro hnil; rw [hnil] at hlen; simp at hlen) hall

theorem decode_hex_values_witness :
    (∀ c ∈ ("0000010214efc2d0f09b4b0bce1f1f5af7df428471031886bff73119c45cdcbc" : String).data,
        (hexVal c).isSome = true) ∧
    16 ≤ ("0000010214efc2d0f09b4b0bce1f1f5af7df428471031886bff73119c45cdcbc" : String).data.length ∧
    decode "0000010214efc2d0f09b4b0bce1f1f5af7df428471031886bff73119c45cdcbc" =
      some ⟨(hexValue (("0000010214efc2d0f09b4b0bce1f1f5af7df428471031886bff73119c45cdcbc" : String).data.take 6) : Nat),
            (hexValue (("0000010214efc2d0f09b4b0bce1f1f5af7df428471031886bff73119c45cdcbc" : String).data.take 8) : Nat),
            (hexValue (("0000010214efc2d0f09b4b0bce1f1f5af7df428471031886bff73119c45cdcbc" : String).data.take 16) : Nat)⟩ :=
  ⟨by decide, by decide, decode_hex_values _ (by decide) (by decide)⟩

/-- C2: for every hexadecimal string of length at least 16, the three
decoded values are nested truncations: `first3 = first4 >>> 8` and
`first4 = first8 >>> 32`. -/
theorem decode_nesting (h : String)
    (hall : ∀ c ∈ h.data, (hexVal c).isSome = true)
    (hlen : 16 ≤ h.data.length) :
    ∃ a b c : Nat, decode h = some ⟨(a : Int), (b : Int), (c : Int)⟩ ∧
      a = b >>> 8 ∧ b = c >>> 32 := by
  refine ⟨hexValue (h.data.take 6), hexValue (h.data.take 8),
          hexValue (h.data.take 16),
          decode_of_hex h (by intro hnil; rw [hnil] at hlen; simp at hlen)
            hall, ?_, ?_⟩
  · have h1 := hexValue_take_shift h.data 6 8 (by norm_num) (by omega)
    norm_num at h1
    exact h1
  · have h1 := hexValue_take_shift h.data 8 16 (by norm_num) (by omega)
    norm_num at h1
    exact h1

theorem decode_nesting_witness :
    (∀ c ∈ ("000002d7a7e5d7bb05b43c21aef385b934c61d3a7605c0829c35defb490a651c" : String).data,
        (hexVal c).isSome = true) ∧
    16 ≤ ("000002d7a7e5d7bb05b43c21aef385b934c61d3a7605c0829c35defb490a651c" : String).data.length ∧
    ∃ a b c : Nat,
      decode "000002d7a7e5d7bb05b43c21aef385b934c61d3a7605c0829c35defb490a651c" =
        some ⟨(a : Int), (b : Int), (c : Int)⟩ ∧ a = b >>> 8 ∧ b = c >>> 32 :=
  ⟨by decide, by decide, decode_nesting _ (by decide) (by decide)⟩

/-- C7 (counterexample): on the first fixture the program computes
`first8 = 464833963264` (the value of `0x0000006c3a436500`), not the value
`108000198740846336` stated in the specification. -/
theorem first_fixture_counterexample :
    decode "0000006c3a436500b20c0c80f5dae66e1233d84da4ddd5af2987cfdb1562eb9f" =
      some ⟨0, 108, 464833963264⟩ ∧
    (464833963264 : Int) ≠ 108000198740846336 := by
  constructor
  · decide
  · decide

/-- C7 (amended): on the first fixture, decode yields `first3 = 0`,
`first4 = 108` and `first8 = 464833963264`. -/
theorem first_fixture_values :
    decode "0000006c3a436500b20c0c80f5dae66e1233d84da4ddd5af2987cfdb1562eb9f" =
      some ⟨0, 108, 464833963264⟩ := by
  decide

/-- C3: when every entry decodes, the driver emits, in input-list order,
exactly one block per hash — the `Hash:` line, the three value lines, and a
blank line (`entryLines`) — and the run completes. -/
theorem driver_output_order (hs : List String)
    (hok : ∀ h ∈ hs, (decode h).isSome = true) :
    runDriver hs = (driverOut hs, true) := by
  induction hs with
  | nil => rfl
  | cons g t ih =>
    rcases Option.isSome_iff_exists.mp (hok g (List.mem_cons_self ..)) with
      ⟨r, hr⟩
    have ht := ih (fun x hx => hok x (List.mem_cons_of_mem _ hx))
    simp only [runDriver, driverOut, entryOut, hr, ht]

theorem driver_output_order_witness :
    (∀ h ∈ hashes, (decode h).isSome = true) ∧
    runDriver hashes = (driverOut hashes, true) :=
  ⟨by decide, driver_output_order hashes (by decide)⟩

/-- C5: when all entries before `bad` decode and `bad` fails, the program
terminates at `bad`: the output is exactly the blocks of the entries
preceding `bad`, the run is marked failed, and later entries contribute
nothing. -/
theorem driver_halts_on_failure (pre : List String) (bad : String)
    (post : List String) (hok : ∀ g ∈ pre, (decode g).isSome = true)
    (hbad : decode bad = none) :
    runDriver (pre ++ bad :: post) = (driverOut pre, false) := by
  induction pre with
  | nil =>
    simp only [List.nil_append, runDriver, hbad, driverOut]
  | cons g t ih =>
    rcases Option.isSome_iff_exists.mp (hok g (List.mem_cons_self ..)) with
      ⟨r, hr⟩
    have ht := ih (fun x hx => hok x (List.mem_cons_of_mem _ hx))
    simp only [List.cons_append, List.append_eq, runDriver, driverOut,
               entryOut, hr, ht]

theorem driver_halts_on_failure_witness :
    (∀ g ∈ [("0000006c3a436500b20c0c80f5dae66e1233d84da4ddd5af2987cfdb1562eb9f" : String)],
        (decode g).isSome = true) ∧
    decode "00000gzz" = none ∧
    runDriver ["0000006c3a436500b20c0c80f5dae66e1233d84da4ddd5af2987cfdb1562eb9f",
               "00000gzz",
               "0000010214efc2d0f09b4b0bce1f1f5af7df428471031886bff73119c45cdcbc"] =
      (driverOut ["0000006c3a436500b20c0c80f5dae66e1233d84da4ddd5af2987cfdb1562eb9f"],
       false) :=
  ⟨by decide, by decide,
   driver_halts_on_failure
     ["0000006c3a436500b20c0c80f5dae66e1233d84da4ddd5af2987cfdb1562eb9f"]
     "00000gzz"
     ["0000010214efc2d0f09b4b0bce1f1f5af7df428471031886bff73119c45cdcbc"]
     (by decide) (by decide)⟩

/-- C10: an entry whose decoding fails produces no output lines at all: the
three conversions all happen before the entry's first print, so a failing
entry never yields a partial block. -/
theorem no_partial_block (h : String) (rest : List String)
    (hfail : decode h = none) :
    runDriver (h :: rest) = ([], false) := by
  simp only [runDriver, hfail]

theorem no_partial_block_witness :
    pyIntHex (("1234567_89abcdef" : String).data.take 16) =
      some 81985529216486895 ∧
    decode "1234567_89abcdef" = none ∧
    runDriver ["1234567_89abcdef"] = ([], false) :=
  ⟨by decide, by decide, no_partial_block "1234567_89abcdef" [] (by decide)⟩

/-- C4 (counterexample): the claim fails in both directions.  `"0x1"`
contains `'x'`, a character outside `[0-9a-fA-F]`, among its first 16
characters, yet decode succeeds (the numeric parser accepts a `0x` base
marker); and decode fails on the empty string although it contains no
character outside the hexadecimal alphabet. -/
theorem format_error_counterexample :
    (('x' : Char) ∈ ("0x1" : String).data.take 16 ∧ hexVal 'x' = none ∧
      decode "0x1" = some ⟨1, 1, 1⟩) ∧
    (decode "" = none ∧
      ∀ c ∈ ("" : String).data, (hexVal c).isSome = true) := by
  refine ⟨⟨by decide, by decide, by decide⟩, rfl, ?_⟩
  intro c hc
  simp at hc

/-- C4 (amended): for ASCII strings in which no decoration character of the
numeric parser (whitespace, sign, underscore, `x`/`X`) occurs among the
first 16 characters, decode fails exactly when the string is empty or some
of its first 16 characters is outside `[0-9a-fA-F]`. -/
theorem format_error_iff (h : String)
    (_hascii : ∀ c ∈ h.data.take 16, c.toNat < 128)
    (hdec : ∀ c ∈ h.data.take 16, isDecoration c = false) :
    decode h = none ↔
      (h.data = [] ∨ ∃ c ∈ h.data.take 16, hexVal c = none) := by
  have hdec8 : ∀ c ∈ h.data.take 8, isDecoration c = false := fun c hc =>
    hdec c (mem_take_mono _ 8 16 (by norm_num) c hc)
  have hdec6 : ∀ c ∈ h.data.take 6, isDecoration c = false := fun c hc =>
    hdec c (mem_take_mono _ 6 16 (by norm_num) c hc)
  rw [decode_none_iff, pyIntHex_none_iff _ hdec, pyIntHex_none_iff _ hdec8,
      pyIntHex_none_iff _ hdec6,
      take_eq_nil_of_ne_zero _ 16 (by norm_num),
      take_eq_nil_of_ne_zero _ 8 (by norm_num),
      take_eq_nil_of_ne_zero _ 6 (by norm_num)]
  constructor
  · rintro ((hnil | hbad) | (hnil | hbad) | (hnil | hbad))
    · exact Or.inl hnil
    · exact Or.inr hbad
    · exact Or.inl hnil
    · rcases hbad with ⟨c, hc, he⟩
      exact Or.inr ⟨c, mem_take_mono _ 8 16 (by norm_num) c hc, he⟩
    · exact Or.inl hnil
    · rcases hbad with ⟨c, hc, he⟩
      exact Or.inr ⟨c, mem_take_mono _ 6 16 (by norm_num) c hc, he⟩
  · rintro (hnil | hbad)
    · exact Or.inl (Or.inl hnil)
    · exact Or.inl (Or.inr hbad)

theorem format_error_iff_witness :
    (∀ c ∈ ("00zz" : String).data.take 16, c.toNat < 128) ∧
    (∀ c ∈ ("00zz" : String).data.take 16, isDecoration c = false) ∧
    (decode "00zz" = none ↔
      (("00zz" : String).data = [] ∨
        ∃ c ∈ ("00zz" : String).data.take 16, hexVal c = none)) :=
  ⟨by decide, by decide, format_error_iff "00zz" (by decide) (by decide)⟩

/-- C6 (counterexample): the empty string is a string of hexadecimal digits
(vacuously) shorter than 16 characters, yet decode raises on it. -/
theorem short_input_counterexample :
    (∀ c ∈ ("" : String).data, (hexVal c).isSome = true) ∧
    ("" : String).data.length < 16 ∧ decode "" = none := by
  refine ⟨?_, by decide, rfl⟩
  intro c hc
  simp at hc

/-- C6 (amended): for every nonempty string of hexadecimal digits, decode
never fails: with fewer than 16 characters it still succeeds, with exactly
16 characters all three extractions succeed, and with 15 characters the
8-byte field silently holds the base-16 value of all 15 characters. -/
theorem short_hex_input (h : String) (hne : h.data ≠ [])
    (hall : ∀ c ∈ h.data, (hexVal c).isSome = true) :
    (h.data.length < 16 → (decode h).isSome = true) ∧
    (h.data.length = 16 →
      decode h = some ⟨(hexValue (h.data.take 6) : Nat),
                       (hexValue (h.data.take 8) : Nat),
                       (hexValue h.data : Nat)⟩) ∧
    (h.data.length = 15 →
      decode h = some ⟨(hexValue (h.data.take 6) : Nat),
                       (hexValue (h.data.take 8) : Nat),
                       (hexValue h.data : Nat)⟩) := by
  have hd := decode_of_hex h hne hall
  refine ⟨fun _ => by rw [hd]; rfl, fun h16 => ?_, fun h15 => ?_⟩
  · rw [hd, show h.data.take 16 = h.data from List.take_of_length_le (by omega)]
  · rw [hd, show h.data.take 16 = h.data from List.take_of_length_le (by omega)]

theorem short_hex_input_witness :
    (("0123456789abcde" : String).data ≠ []) ∧
    (∀ c ∈ ("0123456789abcde" : String).data, (hexVal c).isSome = true) ∧
    ((("0123456789abcde" : String).data.length < 16 →
        (decode "0123456789abcde").isSome = true) ∧
     (("0123456789abcde" : String).data.length = 16 →
        decode "0123456789abcde" =
          some ⟨(hexValue (("0123456789abcde" : String).data.take 6) : Nat),
                (hexValue (("0123456789abcde" : String).data.take 8) : Nat),
                (hexValue ("0123456789abcde" : String).data : Nat)⟩) ∧
     (("0123456789abcde" : String).data.length = 15 →
        decode "0123456789abcde" =
          some ⟨(hexValue (("0123456789abcde" : String).data.take 6) : Nat),
                (hexValue (("0123456789abcde" : String).data.take 8) : Nat),
                (hexValue ("0123456789abcde" : String).data : Nat)⟩)) :=
  ⟨by decide, by decide, short_hex_input "0123456789abcde" (by decide) (by decide)⟩

/-- C8 (counterexample): an input whose slices carry a minus sign decodes
successfully to three negative values, so decode's results are not always
non-negative. -/
theorem negative_sign_counterexample :
    decode "-abcdefabcdefabc" =
      some ⟨-703710, -180150010, -773738404492802748⟩ ∧
    (-703710 : Int) < 0 ∧ (-180150010 : Int) < 0 ∧
    (-773738404492802748 : Int) < 0 := by
  refine ⟨by decide, by decide, by decide, by decide⟩

/-- C8 (amended): for every input string with no `'-'` among its first 16
characters, all three values of a successful decode are non-negative. -/
theorem decode_nonneg (h : String)
    (hns : ('-' : Char) ∉ h.data.take 16)
    (r : DecodedPrefixes) (hr : decode h = some r) :
    0 ≤ r.first3 ∧ 0 ≤ r.first4 ∧ 0 ≤ r.first8 := by
  obtain ⟨h16, h8, h6⟩ := decode_some_inv h r hr
  have m8 : ('-' : Char) ∉ h.data.take 8 := fun hm =>
    hns (mem_take_mono _ 8 16 (by norm_num) _ hm)
  have m6 : ('-' : Char) ∉ h.data.take 6 := fun hm =>
    hns (mem_take_mono _ 6 16 (by norm_num) _ hm)
  exact ⟨pyIntHex_nonneg _ m6 _ h6, pyIntHex_nonneg _ m8 _ h8,
         pyIntHex_nonneg _ hns _ h16⟩

theorem decode_nonneg_witness :
    (('-' : Char) ∉
      ("0000006c3a436500b20c0c80f5dae66e1233d84da4ddd5af2987cfdb1562eb9f" : String).data.take 16) ∧
    decode "0000006c3a436500b20c0c80f5dae66e1233d84da4ddd5af2987cfdb1562eb9f" =
      some ⟨0, 108, 464833963264⟩ ∧
    (0 ≤ (⟨0, 108, 464833963264⟩ : DecodedPrefixes).first3 ∧
     0 ≤ (⟨0, 108, 464833963264⟩ : DecodedPrefixes).first4 ∧
     0 ≤ (⟨0, 108, 464833963264⟩ : DecodedPrefixes).first8) :=
  ⟨by decide, by decide,
   decode_nonneg "0000006c3a436500b20c0c80f5dae66e1233d84da4ddd5af2987cfdb1562eb9f"
     (by decide) ⟨0, 108, 464833963264⟩ (by decide)⟩

/-- C9: on the empty string, decode fails (parsing an empty substring
raises), even though every character of the empty string is vacuously a
hexadecimal digit. -/
theorem empty_string_fails :
    decode "" = none ∧ ∀ c ∈ ("" : String).data, (hexVal c).isSome = true := by
  constructor
  · rfl
  · intro c hc
    simp at hc

end DecodeHash
